import Mathlib

/-!
Verification of the fp-ts-node wrappers: each exported operation wraps a
platform primitive in fp-ts `tryCatch`, normalising raised faults with a
shared `toError` helper.  The embedding models a JS value universe, the
platform behaviour as an oracle from primitive calls to outcomes, and each
wrapper as the literal transcription of its source body (one primitive
call, an optional `.then(() => path)` echo, and the catch clause).
-/

deriving instance DecidableEq for Except

namespace FpTsNode

/-- A JS `Error` value: the structured-error shape (message, and the
optional `code`/`path` fields a platform fault carries). -/
structure JSError where
  message : String
  code : Option String
  path : Option String
deriving DecidableEq

/-- The record produced by `path.parse` and consumed by `path.format`:
{root, dir, base, ext, name}.  Fields are character lists. -/
structure ParsedPath where
  root : List Char
  dir : List Char
  base : List Char
  ext : List Char
  name : List Char
deriving DecidableEq

/-- A stat structure as returned by `fsPromises.stat`/`lstat`. -/
structure Stats where
  size : Int
  mode : Int
  isDirectory : Bool
deriving DecidableEq

/-- The universe of JS values flowing through the wrappers: errors,
strings, numbers, booleans, buffers, stat records, file handles, parsed
path records, and `undefined` (the value of a resolved void promise). -/
inductive JSVal where
  | error : JSError → JSVal
  | str : String → JSVal
  | num : Int → JSVal
  | bool : Bool → JSVal
  | buffer : List Nat → JSVal
  | stats : Stats → JSVal
  | handle : Nat → JSVal
  | parsed : ParsedPath → JSVal
  | unit : JSVal
deriving DecidableEq

/-- `v instanceof Error`. -/
def isErrorVal : JSVal → Bool
  | .error _ => true
  | _ => false

/-- The shared helper from both modules:
`error instanceof Error ? error : Error(defaultMessage)`. -/
def toError (error : JSVal) (defaultMessage : String) : JSError :=
  match error with
  | .error e => e
  | _ => ⟨defaultMessage, none, none⟩

/-- Options accepted by `mkdir`: either a bare mode, or an options record
with a `recursive` flag and an optional mode. -/
inductive MkdirOptions where
  | mode (m : Int)
  | opts (recursive : Option Bool) (m : Option Int)
deriving DecidableEq

/-- An invocation of an underlying platform primitive, with its arguments. -/
inductive PrimCall where
  | access (path : String) (mode : Option Int)
  | appendFile (path data : String)
  | chmod (path : String) (mode : Int)
  | copyFile (src dest : String) (mode : Option Int)
  | lstat (path : String)
  | mkdir (path : String) (options : Option MkdirOptions)
  | readFile (path : String)
  | rename (oldPath newPath : String)
  | stat (path : String)
  | symlink (target path : String)
  | truncate (path : String) (length : Option Int)
  | unlink (path : String)
  | writeFile (file data : String)
  | basename (p : String) (ext : Option String)
  | dirname (p : String)
  | extname (p : String)
  | format (po : ParsedPath)
  | isAbsolute (p : String)
  | join (paths : List String)
  | normalize (p : String)
  | parse (p : String)
  | relative (f t : String)
  | resolve (paths : List String)
deriving DecidableEq

/-- What a single primitive call does: return a value, or raise one. -/
inductive JSOutcome where
  | ret : JSVal → JSOutcome
  | raise : JSVal → JSOutcome
deriving DecidableEq

/-- The platform behaviour: what each primitive call returns or raises. -/
def Oracle := PrimCall → JSOutcome

/-- A JS thunk as handed to fp-ts `tryCatch`: given the platform
behaviour it returns or raises a value, and records the primitive calls
it performs. -/
def JSThunk := Oracle → JSOutcome × List PrimCall

/-- A thunk consisting of a single primitive invocation. -/
def callPrim (c : PrimCall) : JSThunk := fun σ => (σ c, [c])

/-- `promise.then(() => v)`: replace a successful result with `v`,
propagate a raised fault unchanged. -/
def thenConst (t : JSThunk) (v : JSVal) : JSThunk := fun σ =>
  match t σ with
  | (.ret _, tr) => (.ret v, tr)
  | (.raise e, tr) => (.raise e, tr)

/-- fp-ts `tryCatch`: run the thunk; a returned value becomes `Right`,
a raised fault is mapped by `onError` into `Left`.  Running the produced
IOEither/TaskEither yields this Either together with the call trace. -/
def tryCatch (t : JSThunk) (onError : JSVal → JSError) :
    Oracle → Except JSError JSVal × List PrimCall := fun σ =>
  match t σ with
  | (.ret v, tr) => (.ok v, tr)
  | (.raise e, tr) => (.error (onError e), tr)

end FpTsNode

namespace FpTsNode.FsPromises

/-! Transcription of `src/src/fs/promises.ts`. -/

open FpTsNode

/-- `tryCatch(() => fsPromises.access(path, mode).then(() => path), r => toError(r, "Unexpected error while accessing path"))` -/
def access (path : String) (mode : Option Int) :
    Oracle → Except JSError JSVal × List PrimCall :=
  tryCatch (thenConst (callPrim (.access path mode)) (.str path))
    (fun reason => toError reason "Unexpected error while accessing path")

/-- `tryCatch(() => fsPromises.appendFile(path, data, options).then(() => path), r => toError(r, "Unexpected error appending file"))` -/
def appendFile (path data : String) :
    Oracle → Except JSError JSVal × List PrimCall :=
  tryCatch (thenConst (callPrim (.appendFile path data)) (.str path))
    (fun reason => toError reason "Unexpected error appending file")

/-- `tryCatch(() => fsPromises.chmod(path, mode).then(() => path), r => toError(r, "Unexpected error while performing chmod"))` -/
def chmod (path : String) (mode : Int) :
    Oracle → Except JSError JSVal × List PrimCall :=
  tryCatch (thenConst (callPrim (.chmod path mode)) (.str path))
    (fun reason => toError reason "Unexpected error while performing chmod")

/-- `tryCatch(() => fsPromises.copyFile(src, dest, mode).then(() => dest), r => toError(r, "Unexpected error during copyFile"))` -/
def copyFile (src dest : String) (mode : Option Int) :
    Oracle → Except JSError JSVal × List PrimCall :=
  tryCatch (thenConst (callPrim (.copyFile src dest mode)) (.str dest))
    (fun reason => toError reason "Unexpected error during copyFile")

/-- `tryCatch(() => fsPromises.lstat(path, options), r => toError(r, ""))` -/
def lstat (path : String) : Oracle → Except JSError JSVal × List PrimCall :=
  tryCatch (callPrim (.lstat path)) (fun reason => toError reason "")

/-- `tryCatch(() => fsPromises.mkdir(path, options).then(() => path), r => toError(r, ""))` -/
def mkdir (path : String) (options : Option MkdirOptions) :
    Oracle → Except JSError JSVal × List PrimCall :=
  tryCatch (thenConst (callPrim (.mkdir path options)) (.str path))
    (fun reason => toError reason "")

/-- `tryCatch(() => fsPromises.readFile(path, options), r => toError(r, ""))` -/
def readFile (path : String) : Oracle → Except JSError JSVal × List PrimCall :=
  tryCatch (callPrim (.readFile path)) (fun reason => toError reason "")

/-- `tryCatch(() => fsPromises.rename(oldPath, newPath), r => toError(r, ""))` — no echo. -/
def rename (oldPath newPath : String) :
    Oracle → Except JSError JSVal × List PrimCall :=
  tryCatch (callPrim (.rename oldPath newPath)) (fun reason => toError reason "")

/-- `tryCatch(() => fsPromises.stat(path, options), r => toError(r, ""))` -/
def stat (path : String) : Oracle → Except JSError JSVal × List PrimCall :=
  tryCatch (callPrim (.stat path)) (fun reason => toError reason "")

/-- `tryCatch(() => fsPromises.symlink(target, path, type), r => toError(r, ""))` — no echo. -/
def symlink (target path : String) :
    Oracle → Except JSError JSVal × List PrimCall :=
  tryCatch (callPrim (.symlink target path)) (fun reason => toError reason "")

/-- `tryCatch(() => fsPromises.truncate(path, length), r => toError(r, ""))` — no echo. -/
def truncate (path : String) (length : Option Int) :
    Oracle → Except JSError JSVal × List PrimCall :=
  tryCatch (callPrim (.truncate path length)) (fun reason => toError reason "")

/-- `tryCatch(() => fsPromises.unlink(path), r => toError(r, ""))` — no echo. -/
def unlink (path : String) : Oracle → Except JSError JSVal × List PrimCall :=
  tryCatch (callPrim (.unlink path)) (fun reason => toError reason "")

/-- `tryCatch(() => fsPromises.writeFile(file, data, options), r => toError(r, ""))` — no echo. -/
def writeFile (file data : String) :
    Oracle → Except JSError JSVal × List PrimCall :=
  tryCatch (callPrim (.writeFile file data)) (fun reason => toError reason "")

end FpTsNode.FsPromises

namespace FpTsNode.PathTs

/-! Transcription of the alternate module version `src/src/path.ts`,
whose touch-like wrappers echo the supplied path. -/

open FpTsNode

/-- `tryCatch(() => fsPromises.rename(oldPath, newPath).then(() => newPath), r => toError(r, ""))` -/
def rename (oldPath newPath : String) :
    Oracle → Except JSError JSVal × List PrimCall :=
  tryCatch (thenConst (callPrim (.rename oldPath newPath)) (.str newPath))
    (fun reason => toError reason "")

/-- `tryCatch(() => fsPromises.symlink(target, path, type).then(() => path), r => toError(r, ""))` -/
def symlink (target path : String) :
    Oracle → Except JSError JSVal × List PrimCall :=
  tryCatch (thenConst (callPrim (.symlink target path)) (.str path))
    (fun reason => toError reason "")

/-- `tryCatch(() => fsPromises.truncate(path, length).then(() => path), r => toError(r, ""))` -/
def truncate (path : String) (length : Option Int) :
    Oracle → Except JSError JSVal × List PrimCall :=
  tryCatch (thenConst (callPrim (.truncate path length)) (.str path))
    (fun reason => toError reason "")

/-- `tryCatch(() => fsPromises.writeFile(file, data, options).then(() => file), r => toError(r, ""))` -/
def writeFile (file data : String) :
    Oracle → Except JSError JSVal × List PrimCall :=
  tryCatch (thenConst (callPrim (.writeFile file data)) (.str file))
    (fun reason => toError reason "")

end FpTsNode.PathTs

namespace FpTsNode.PathMod

/-! Transcription of the path module (`src/unnamed/part_000`). -/

open FpTsNode

/-- `tryCatch(() => path.basename(p, ext), r => toError(r, "Unexpected error getting basename"))` -/
def basename (p : String) (ext : Option String) :
    Oracle → Except JSError JSVal × List PrimCall :=
  tryCatch (callPrim (.basename p ext))
    (fun reason => toError reason "Unexpected error getting basename")

/-- `tryCatch(() => path.dirname(p), r => toError(r, "Unexpected error getting dirname"))` -/
def dirname (p : String) : Oracle → Except JSError JSVal × List PrimCall :=
  tryCatch (callPrim (.dirname p))
    (fun reason => toError reason "Unexpected error getting dirname")

/-- `tryCatch(() => path.extname(p), r => toError(r, "Unexpected error getting extname"))` -/
def extname (p : String) : Oracle → Except JSError JSVal × List PrimCall :=
  tryCatch (callPrim (.extname p))
    (fun reason => toError reason "Unexpected error getting extname")

/-- `tryCatch(() => path.format(po), r => toError(r, "Unexpected error formatting path object"))` -/
def format (po : ParsedPath) : Oracle → Except JSError JSVal × List PrimCall :=
  tryCatch (callPrim (.format po))
    (fun reason => toError reason "Unexpected error formatting path object")

/-- `tryCatch(() => path.isAbsolute(p), r => toError(r, "Unexpected error checking for absolute path"))` -/
def isAbsolute (p : String) : Oracle → Except JSError JSVal × List PrimCall :=
  tryCatch (callPrim (.isAbsolute p))
    (fun reason => toError reason "Unexpected error checking for absolute path")

/-- `tryCatch(() => path.join(...paths), r => toError(r, "Unexpected error joining path segments"))` -/
def join (paths : List String) : Oracle → Except JSError JSVal × List PrimCall :=
  tryCatch (callPrim (.join paths))
    (fun reason => toError reason "Unexpected error joining path segments")

/-- `tryCatch(() => path.normalize(p), r => toError(r, "Unexpected error normalizing path"))` -/
def normalize (p : String) : Oracle → Except JSError JSVal × List PrimCall :=
  tryCatch (callPrim (.normalize p))
    (fun reason => toError reason "Unexpected error normalizing path")

/-- `tryCatch(() => path.parse(p), r => toError(r, "Unexpected error parsing path"))` -/
def parse (p : String) : Oracle → Except JSError JSVal × List PrimCall :=
  tryCatch (callPrim (.parse p))
    (fun reason => toError reason "Unexpected error parsing path")

/-- `tryCatch(() => path.relative(f, t), r => toError(r, "Unexpected error solving the relative path"))` -/
def relative (f t : String) : Oracle → Except JSError JSVal × List PrimCall :=
  tryCatch (callPrim (.relative f t))
    (fun reason => toError reason "Unexpected error solving the relative path")

/-- `tryCatch(() => path.resolve(...paths), r => toError(r, "Unexpected error resolving path segments"))` -/
def resolve (paths : List String) : Oracle → Except JSError JSVal × List PrimCall :=
  tryCatch (callPrim (.resolve paths))
    (fun reason => toError reason "Unexpected error resolving path segments")

end FpTsNode.PathMod

namespace FpTsNode.PathModel

/-! The behaviour of the platform path primitives the wrappers forward to.
This code lives in the host platform, not in the repository, so it is
modelled from the spec (and from the behaviour documented by the doc
comments in the repository), for POSIX separators. -/

open FpTsNode

/-- Is a character the POSIX path separator? -/
def isSep (c : Char) : Bool := c == '/'

/-- Negation of `isSep`. -/
def notSep (c : Char) : Bool := !(isSep c)

/-- Modelled from the spec: `parse` ignores trailing directory
separators; this drops them. -/
def dropTrailSeps (l : List Char) : List Char := (l.reverse.dropWhile isSep).reverse

/-- Split a character list at its last `.`: returns the part before and
the part after (the part after holds no further `.`). -/
def lastDotSplit : List Char → Option (List Char × List Char)
  | [] => none
  | c :: cs =>
    match lastDotSplit cs with
    | some (pre, suf) => some (c :: pre, suf)
    | none => if c = '.' then some ([], cs) else none

/-- Modelled from the spec: split a basename into (name, ext) — ext runs
from the last `.` to the end, it is empty when there is no `.`, when the
only `.` is the first character, or when the segment is exactly `..`. -/
def splitBase (b : List Char) : List Char × List Char :=
  if b = ['.', '.'] then (b, [])
  else
    match lastDotSplit b with
    | some (pre, suf) => if pre = [] then (b, []) else (pre, '.' :: suf)
    | none => (b, [])

/-- The all-empty parsed-path record. -/
def ParsedPath.empty : ParsedPath := ⟨[], [], [], [], []⟩

/-- Modelled from the spec: the platform `path.parse` (POSIX), which is
not part of the repository.  Decomposes a path into
{root, dir, base, ext, name}; trailing directory separators are ignored. -/
def pathParseL : List Char → ParsedPath
  | [] => ParsedPath.empty
  | c :: cs =>
    let root : List Char := if isSep c then ['/'] else []
    let q := dropTrailSeps (c :: cs)
    if q = [] then ⟨['/'], ['/'], [], [], []⟩
    else
      let b := (q.reverse.takeWhile notSep).reverse
      let pre := (q.reverse.dropWhile notSep).reverse
      let d := pre.dropLast
      ⟨root, if d = [] then root else d, b, (splitBase b).2, (splitBase b).1⟩

/-- String version of `pathParseL`. -/
def pathParse (p : String) : ParsedPath := pathParseL p.data

/-- Modelled from the spec: the platform `path.format` (POSIX), the
opposite of `path.parse`: `dir` takes precedence over `root`, and `base`
over `name` + `ext`. -/
def pathFormatL (po : ParsedPath) : List Char :=
  let dir := if po.dir = [] then po.root else po.dir
  let b := if po.base = [] then po.name ++ po.ext else po.base
  if dir = [] then b
  else if dir = po.root then dir ++ b
  else dir ++ '/' :: b

/-- String version of `pathFormatL`. -/
def pathFormat (po : ParsedPath) : String := (pathFormatL po).asString

/-- Split a character list at every separator (the analogue of
splitting a string on `"/"`). -/
def splitSepAux (cur : List Char) : List Char → List (List Char)
  | [] => [cur.reverse]
  | c :: cs => if isSep c then cur.reverse :: splitSepAux [] cs else splitSepAux (c :: cur) cs

/-- Split at separators, starting with an empty current segment. -/
def splitSep (l : List Char) : List (List Char) := splitSepAux [] l

/-- Join segments with the separator. -/
def joinSep : List (List Char) → List Char
  | [] => []
  | [s] => s
  | s :: t :: rest => s ++ '/' :: joinSep (t :: rest)

/-- One step of `.`/`..` segment resolution: skip empty and `.` segments;
on `..` pop the previous segment, or keep a leading `..` when climbing
above the start is allowed. -/
def dotsStep (allowAbove : Bool) (acc : List (List Char)) (s : List Char) :
    List (List Char) :=
  if s = [] || s = ['.'] then acc
  else if s = ['.', '.'] then
    match acc with
    | t :: rest => if t = ['.', '.'] then (if allowAbove then ['.', '.'] :: acc else acc) else rest
    | [] => if allowAbove then [['.', '.']] else []
  else s :: acc

/-- Modelled from the spec: collapse `.`/`..` and repeated separators in
a segment list. -/
def resolveDots (allowAbove : Bool) (segs : List (List Char)) : List (List Char) :=
  (segs.foldl (dotsStep allowAbove) []).reverse

/-- Modelled from the spec: the platform `path.normalize` (POSIX) —
collapses `.`/`..` and repeated separators, preserves a trailing
separator, and maps the empty path to `"."`. -/
def pathNormalizeL (p : List Char) : List Char :=
  match p with
  | [] => ['.']
  | c :: cs =>
    let abs := isSep c
    let trail := match (c :: cs).reverse with | x :: _ => isSep x | [] => false
    let core := joinSep (resolveDots (!abs) (splitSep (c :: cs)))
    if core = [] then
      if abs then ['/'] else if trail then ['.', '/'] else ['.']
    else
      let out := if abs then '/' :: core else core
      if trail then out ++ ['/'] else out

/-- String version of `pathNormalizeL`. -/
def pathNormalize (p : String) : String := (pathNormalizeL p.data).asString

/-- Modelled from the spec: the platform `path.join` (POSIX) — empty
segments are ignored, the joined string is normalized, and an empty
result yields `"."`. -/
def pathJoinL (paths : List (List Char)) : List Char :=
  let parts := paths.filter (fun s => !s.isEmpty)
  if parts = [] then ['.'] else pathNormalizeL (joinSep parts)

/-- String version of `pathJoinL`. -/
def pathJoin (paths : List String) : String :=
  (pathJoinL (paths.map String.data)).asString

/-- One right-to-left step of `path.resolve`: once an absolute path is
assembled further segments are ignored; empty segments are skipped. -/
def resolveStep (st : List Char × Bool) (p : List Char) : List Char × Bool :=
  if st.2 then st
  else if p = [] then st
  else (p ++ '/' :: st.1, isSep (p.headD ' '))

/-- Modelled from the spec: the platform `path.resolve` (POSIX) against
a given working directory — segments are processed right to left until
an absolute path is assembled, falling back to the working directory;
the result is normalized with trailing separators stripped. -/
def pathResolveL (cwd : List Char) (paths : List (List Char)) : List Char :=
  let st := paths.reverse.foldl resolveStep ([], false)
  let st2 := if st.2 then st else (cwd ++ '/' :: st.1, isSep (cwd.headD ' '))
  let core := joinSep (resolveDots (!st2.2) (splitSep st2.1))
  if st2.2 then '/' :: core else if core = [] then ['.'] else core

/-- String version of `pathResolveL`. -/
def pathResolve (cwd : String) (paths : List String) : String :=
  (pathResolveL cwd.data (paths.map String.data)).asString

/-- Climb out of the remaining source segments and descend into the
remaining destination segments. -/
def mkRel (fs ts : List (List Char)) : List Char :=
  joinSep ((fs.map (fun _ => ['.', '.'])) ++ ts)

/-- Drop the common leading segments of the two resolved paths, then
delegate to `mkRel`. -/
def relSegs : List (List Char) → List (List Char) → List Char
  | f :: fs, t :: ts => if f = t then relSegs fs ts else mkRel (f :: fs) (t :: ts)
  | fs, ts => mkRel fs ts

/-- Modelled from the spec: the platform `path.relative` (POSIX) — both
arguments are resolved against the working directory first; identical
arguments or identical resolved paths yield the empty string. -/
def pathRelativeL (cwd f t : List Char) : List Char :=
  if f = t then []
  else
    let fr := pathResolveL cwd [f]
    let tr := pathResolveL cwd [t]
    if fr = tr then []
    else
      relSegs ((splitSep fr).filter (fun s => !s.isEmpty))
        ((splitSep tr).filter (fun s => !s.isEmpty))

/-- String version of `pathRelativeL`. -/
def pathRelative (cwd f t : String) : String :=
  (pathRelativeL cwd.data f.data t.data).asString

/-- Modelled from the spec: `fsPromises.mkdir` on a path that already
exists as a directory rejects with an EEXIST fault exactly when
`recursive` is false (the default); otherwise it resolves with no value. -/
def mkdirPrim (dirs : List String) (path : String) (options : Option MkdirOptions) :
    JSOutcome :=
  let recur : Bool :=
    match options with
    | some (.opts (some r) _) => r
    | _ => false
  if path ∈ dirs then
    if recur then .ret .unit
    else .raise (.error ⟨"EEXIST: file already exists, mkdir " ++ path,
      some "EEXIST", some path⟩)
  else .ret .unit

/-- An oracle whose `mkdir` calls behave like `mkdirPrim` over the given
set of existing directories; the other primitives resolve trivially. -/
def mkdirOracle (dirs : List String) : Oracle := fun c =>
  match c with
  | .mkdir p o => mkdirPrim dirs p o
  | _ => .ret .unit

/-- An oracle realising the modelled path primitives: the pure path
calls return their modelled values and never raise (the platform raises
only on non-string inputs, which the typed wrappers exclude). -/
def pathOracle (cwd : String) : Oracle := fun c =>
  match c with
  | .format po => .ret (.str (pathFormat po))
  | .parse p => .ret (.parsed (pathParse p))
  | .normalize p => .ret (.str (pathNormalize p))
  | .join ps => .ret (.str (pathJoin ps))
  | .relative f t => .ret (.str (pathRelative cwd f t))
  | .resolve ps => .ret (.str (pathResolve cwd ps))
  | _ => .ret .unit

end FpTsNode.PathModel

namespace FpTsNode

/-- A sample platform behaviour where every primitive returns a value:
`stat` a stat record, `readFile` file contents, the rest `undefined`. -/
def retOracle : Oracle := fun c =>
  match c with
  | .stat _ => .ret (.stats ⟨3, 420, false⟩)
  | .readFile _ => .ret (.str "contents")
  | _ => .ret .unit

/-- A sample structured platform fault. -/
def sampleErr : JSError :=
  ⟨"ENOENT: no such file or directory", some "ENOENT", some "/tmp/x"⟩

/-- A platform behaviour where every primitive raises the structured
fault `sampleErr`. -/
def errOracle : Oracle := fun _ => .raise (.error sampleErr)

/-- A platform behaviour where every primitive raises a bare string —
a raised value that is not an Error. -/
def strOracle : Oracle := fun _ => .raise (.str "oops")

end FpTsNode

namespace FpTsNode

open PathModel

/-- C1: for every wrapped operation, on every input where the underlying
primitive returns a value without raising, the outcome is tagged success
and carries exactly that value — the stat record for `stat`, the contents
for `readFile` — or, for the void-returning `access`, the supplied path
echo. -/
theorem c1_success_passthrough (σ : Oracle) (p q r : String) (m : Option Int)
    (v w u : JSVal)
    (hstat : σ (.stat p) = .ret v)
    (hread : σ (.readFile q) = .ret w)
    (hacc : σ (.access r m) = .ret u) :
    (FsPromises.stat p σ).1 = .ok v ∧
    (FsPromises.readFile q σ).1 = .ok w ∧
    (FsPromises.access r m σ).1 = .ok (.str r) := by
  refine ⟨?_, ?_, ?_⟩ <;>
    simp [FsPromises.stat, FsPromises.readFile, FsPromises.access,
      tryCatch, thenConst, callPrim, hstat, hread, hacc]

/-- C1 witness: the passthrough at a concrete platform behaviour. -/
theorem c1_witness :
    (retOracle (.stat "a") = .ret (.stats ⟨3, 420, false⟩) ∧
     retOracle (.readFile "b") = .ret (.str "contents") ∧
     retOracle (.access "c" none) = .ret .unit) ∧
    ((FsPromises.stat "a" retOracle).1 = .ok (.stats ⟨3, 420, false⟩) ∧
     (FsPromises.readFile "b" retOracle).1 = .ok (.str "contents") ∧
     (FsPromises.access "c" none retOracle).1 = .ok (.str "c")) :=
  ⟨⟨rfl, rfl, rfl⟩,
   c1_success_passthrough retOracle "a" "b" "c" none _ _ _ rfl rfl rfl⟩

/-- C2: on every input where the underlying primitive raises a value that
already has the structured-error shape, the outcome is tagged failure and
carries that exact fault forwarded unchanged. -/
theorem c2_structured_fault_forwarded (σ : Oracle) (p q : String)
    (m : Option Int) (e : JSError)
    (h1 : σ (.stat p) = .raise (.error e))
    (h2 : σ (.access p m) = .raise (.error e))
    (h3 : σ (.basename q none) = .raise (.error e))
    (h4 : σ (.lstat p) = .raise (.error e)) :
    (FsPromises.stat p σ).1 = .error e ∧
    (FsPromises.access p m σ).1 = .error e ∧
    (PathMod.basename q none σ).1 = .error e ∧
    (FsPromises.lstat p σ).1 = .error e := by
  refine ⟨?_, ?_, ?_, ?_⟩ <;>
    simp [FsPromises.stat, FsPromises.access, PathMod.basename,
      FsPromises.lstat, tryCatch, thenConst, callPrim, h1, h2, h3, h4, toError]

/-- C2 witness: the forwarding at a concrete structured fault. -/
theorem c2_witness :
    (errOracle (.stat "a") = .raise (.error sampleErr) ∧
     errOracle (.access "a" none) = .raise (.error sampleErr) ∧
     errOracle (.basename "q" none) = .raise (.error sampleErr) ∧
     errOracle (.lstat "a") = .raise (.error sampleErr)) ∧
    ((FsPromises.stat "a" errOracle).1 = .error sampleErr ∧
     (FsPromises.access "a" none errOracle).1 = .error sampleErr ∧
     (PathMod.basename "q" none errOracle).1 = .error sampleErr ∧
     (FsPromises.lstat "a" errOracle).1 = .error sampleErr) :=
  ⟨⟨rfl, rfl, rfl, rfl⟩,
   c2_structured_fault_forwarded errOracle "a" "q" none sampleErr rfl rfl rfl rfl⟩

/-- C3: on every input where the underlying primitive raises a value that
is not a structured error, the outcome is tagged failure carrying a newly
built generic error whose message equals the fixed default of the
operation — "Unexpected error getting basename" for `basename`, and the
empty string for `lstat` and `mkdir`. -/
theorem c3_default_message (σ : Oracle) (p : String) (o : Option MkdirOptions)
    (v : JSVal) (hv : isErrorVal v = false)
    (h1 : σ (.basename p none) = .raise v)
    (h2 : σ (.lstat p) = .raise v)
    (h3 : σ (.mkdir p o) = .raise v) :
    (PathMod.basename p none σ).1 =
      .error ⟨"Unexpected error getting basename", none, none⟩ ∧
    (FsPromises.lstat p σ).1 = .error ⟨"", none, none⟩ ∧
    (FsPromises.mkdir p o σ).1 = .error ⟨"", none, none⟩ := by
  have htoe : ∀ msg, toError v msg = ⟨msg, none, none⟩ := by
    intro msg; cases v <;> simp_all [toError, isErrorVal]
  refine ⟨?_, ?_, ?_⟩ <;>
    simp [PathMod.basename, FsPromises.lstat, FsPromises.mkdir,
      tryCatch, thenConst, callPrim, h1, h2, h3, htoe]

/-- C3 witness: the substitution at a concrete non-Error raised value. -/
theorem c3_witness :
    (isErrorVal (.str "oops") = false ∧
     strOracle (.basename "p" none) = .raise (.str "oops") ∧
     strOracle (.lstat "p") = .raise (.str "oops") ∧
     strOracle (.mkdir "p" none) = .raise (.str "oops")) ∧
    ((PathMod.basename "p" none strOracle).1 =
       .error ⟨"Unexpected error getting basename", none, none⟩ ∧
     (FsPromises.lstat "p" strOracle).1 = .error ⟨"", none, none⟩ ∧
     (FsPromises.mkdir "p" none strOracle).1 = .error ⟨"", none, none⟩) :=
  ⟨⟨rfl, rfl, rfl, rfl⟩,
   c3_default_message strOracle "p" none (.str "oops") rfl rfl rfl rfl⟩

/-- C4 counterexample: the claim fails on the code — in fs/promises.ts
the void-returning `rename`, `symlink` and `writeFile` succeed with the
void result of the primitive, not with the supplied path argument. -/
theorem c4_counterexample :
    (FsPromises.rename "a" "b" retOracle).1 = .ok .unit ∧
    (FsPromises.rename "a" "b" retOracle).1 ≠ .ok (.str "b") ∧
    (FsPromises.rename "a" "b" retOracle).1 ≠ .ok (.str "a") ∧
    (FsPromises.symlink "t" "p" retOracle).1 = .ok .unit ∧
    (FsPromises.symlink "t" "p" retOracle).1 ≠ .ok (.str "p") ∧
    (FsPromises.writeFile "f" "d" retOracle).1 = .ok .unit ∧
    (FsPromises.writeFile "f" "d" retOracle).1 ≠ .ok (.str "f") := by
  decide

/-- C4 amended: in fs/promises.ts only `access`, `appendFile`, `chmod`,
`copyFile` and `mkdir` (together with `chown`, `cp`, `lchown`, `lutimes`
and `link`, of the same shape) echo the supplied path on success; the
void-returning `rename`, `symlink`, `truncate`, `unlink` and `writeFile`
succeed with the void result instead.  The alternate module version in
path.ts echoes the path for `rename`, `symlink`, `truncate` and
`writeFile` as well. -/
theorem c4_amended_echo_policy (σ : Oracle) (p src dest oldp newp f data tgt : String)
    (m : Option Int) (md : Int) (o : Option MkdirOptions) (len : Option Int)
    (h1 : σ (.access p m) = .ret .unit)
    (h2 : σ (.appendFile p data) = .ret .unit)
    (h3 : σ (.chmod p md) = .ret .unit)
    (h4 : σ (.copyFile src dest m) = .ret .unit)
    (h5 : σ (.mkdir p o) = .ret .unit)
    (h6 : σ (.rename oldp newp) = .ret .unit)
    (h7 : σ (.symlink tgt p) = .ret .unit)
    (h8 : σ (.truncate p len) = .ret .unit)
    (h9 : σ (.unlink p) = .ret .unit)
    (h10 : σ (.writeFile f data) = .ret .unit) :
    (FsPromises.access p m σ).1 = .ok (.str p) ∧
    (FsPromises.appendFile p data σ).1 = .ok (.str p) ∧
    (FsPromises.chmod p md σ).1 = .ok (.str p) ∧
    (FsPromises.copyFile src dest m σ).1 = .ok (.str dest) ∧
    (FsPromises.mkdir p o σ).1 = .ok (.str p) ∧
    (FsPromises.rename oldp newp σ).1 = .ok .unit ∧
    (FsPromises.symlink tgt p σ).1 = .ok .unit ∧
    (FsPromises.truncate p len σ).1 = .ok .unit ∧
    (FsPromises.unlink p σ).1 = .ok .unit ∧
    (FsPromises.writeFile f data σ).1 = .ok .unit ∧
    (PathTs.rename oldp newp σ).1 = .ok (.str newp) ∧
    (PathTs.symlink tgt p σ).1 = .ok (.str p) ∧
    (PathTs.truncate p len σ).1 = .ok (.str p) ∧
    (PathTs.writeFile f data σ).1 = .ok (.str f) := by
  refine ⟨?_, ?_, ?_, ?_, ?_, ?_, ?_, ?_, ?_, ?_, ?_, ?_, ?_, ?_⟩ <;>
    simp [FsPromises.access, FsPromises.appendFile, FsPromises.chmod,
      FsPromises.copyFile, FsPromises.mkdir, FsPromises.rename,
      FsPromises.symlink, FsPromises.truncate, FsPromises.unlink,
      FsPromises.writeFile, PathTs.rename, PathTs.symlink, PathTs.truncate,
      PathTs.writeFile, tryCatch, thenConst, callPrim,
      h1, h2, h3, h4, h5, h6, h7, h8, h9, h10]

/-- C4 amended witness: the echo policy at a concrete behaviour. -/
theorem c4_amended_witness :
    (retOracle (.access "p" none) = .ret .unit ∧
     retOracle (.rename "o" "n") = .ret .unit ∧
     retOracle (.writeFile "f" "d") = .ret .unit) ∧
    ((FsPromises.access "p" none retOracle).1 = .ok (.str "p") ∧
     (FsPromises.appendFile "p" "d" retOracle).1 = .ok (.str "p") ∧
     (FsPromises.chmod "p" 7 retOracle).1 = .ok (.str "p") ∧
     (FsPromises.copyFile "s" "t" none retOracle).1 = .ok (.str "t") ∧
     (FsPromises.mkdir "p" none retOracle).1 = .ok (.str "p") ∧
     (FsPromises.rename "o" "n" retOracle).1 = .ok .unit ∧
     (FsPromises.symlink "g" "p" retOracle).1 = .ok .unit ∧
     (FsPromises.truncate "p" none retOracle).1 = .ok .unit ∧
     (FsPromises.unlink "p" retOracle).1 = .ok .unit ∧
     (FsPromises.writeFile "f" "d" retOracle).1 = .ok .unit ∧
     (PathTs.rename "o" "n" retOracle).1 = .ok (.str "n") ∧
     (PathTs.symlink "g" "p" retOracle).1 = .ok (.str "p") ∧
     (PathTs.truncate "p" none retOracle).1 = .ok (.str "p") ∧
     (PathTs.writeFile "f" "d" retOracle).1 = .ok (.str "f")) :=
  ⟨⟨rfl, rfl, rfl⟩,
   c4_amended_echo_policy retOracle "p" "s" "t" "o" "n" "f" "d" "g"
     none 7 none none rfl rfl rfl rfl rfl rfl rfl rfl rfl rfl⟩

/-- C5: every wrapper is total at its boundary — for every platform
behaviour (return, raised Error, raised non-Error) the run yields a
tagged Either outcome: either success with some value, or failure whose
payload is the Error built by `toError` from the raised value; no raised
fault propagates. -/
theorem c5_total_boundary (σ : Oracle) (p : String) (m : Option Int)
    (ext : Option String) :
    ((∃ v, (FsPromises.access p m σ).1 = .ok v) ∨
      (∃ e, σ (.access p m) = .raise e ∧
        (FsPromises.access p m σ).1 =
          .error (toError e "Unexpected error while accessing path"))) ∧
    ((∃ v, (FsPromises.stat p σ).1 = .ok v) ∨
      (∃ e, σ (.stat p) = .raise e ∧
        (FsPromises.stat p σ).1 = .error (toError e ""))) ∧
    ((∃ v, (PathMod.basename p ext σ).1 = .ok v) ∨
      (∃ e, σ (.basename p ext) = .raise e ∧
        (PathMod.basename p ext σ).1 =
          .error (toError e "Unexpected error getting basename"))) := by
  refine ⟨?_, ?_, ?_⟩
  · cases h : σ (.access p m) with
    | ret v =>
      exact .inl ⟨.str p, by
        simp [FsPromises.access, tryCatch, thenConst, callPrim, h]⟩
    | raise e =>
      exact .inr ⟨e, rfl, by
        simp [FsPromises.access, tryCatch, thenConst, callPrim, h]⟩
  · cases h : σ (.stat p) with
    | ret v =>
      exact .inl ⟨v, by simp [FsPromises.stat, tryCatch, callPrim, h]⟩
    | raise e =>
      exact .inr ⟨e, rfl, by simp [FsPromises.stat, tryCatch, callPrim, h]⟩
  · cases h : σ (.basename p ext) with
    | ret v =>
      exact .inl ⟨v, by simp [PathMod.basename, tryCatch, callPrim, h]⟩
    | raise e =>
      exact .inr ⟨e, rfl, by simp [PathMod.basename, tryCatch, callPrim, h]⟩

/-- C6: each run of the deferred value invokes the underlying primitive
exactly once — the recorded call trace is the one-element list holding
that call, for every platform behaviour, so there is no retry, batching
or reordering. -/
theorem c6_exactly_one_call (σ : Oracle) (p q : String) (m : Option Int)
    (ext : Option String) :
    (FsPromises.access p m σ).2 = [.access p m] ∧
    (PathMod.basename q ext σ).2 = [.basename q ext] ∧
    (FsPromises.stat p σ).2 = [.stat p] ∧
    (FsPromises.readFile p σ).2 = [.readFile p] := by
  refine ⟨?_, ?_, ?_, ?_⟩
  · cases h : σ (.access p m) <;>
      simp [FsPromises.access, tryCatch, thenConst, callPrim, h]
  · cases h : σ (.basename q ext) <;>
      simp [PathMod.basename, tryCatch, callPrim, h]
  · cases h : σ (.stat p) <;>
      simp [FsPromises.stat, tryCatch, callPrim, h]
  · cases h : σ (.readFile p) <;>
      simp [FsPromises.readFile, tryCatch, callPrim, h]

/-- C8: `normalize` on the empty string succeeds with ".", and `join`
applied to no segments or to only zero-length segments succeeds
with ".". -/
theorem c8_normalize_empty_join_empty (cwd : String) (segs : List String)
    (h : ∀ s ∈ segs, s = "") :
    (PathMod.normalize "" (pathOracle cwd)).1 = .ok (.str ".") ∧
    (PathMod.join [] (pathOracle cwd)).1 = .ok (.str ".") ∧
    (PathMod.join segs (pathOracle cwd)).1 = .ok (.str ".") := by
  have hjoin : pathJoin segs = "." := by
    have hparts : (segs.map String.data).filter (fun s => !s.isEmpty) = [] := by
      rw [List.filter_eq_nil_iff]
      intro a ha
      obtain ⟨s, hs, rfl⟩ := List.mem_map.mp ha
      simp [h s hs]
    simp only [pathJoin, pathJoinL, hparts]
    decide
  refine ⟨?_, ?_, ?_⟩
  · simp only [PathMod.normalize, tryCatch, callPrim, pathOracle]
    decide
  · simp only [PathMod.join, tryCatch, callPrim, pathOracle]
    decide
  · simp [PathMod.join, tryCatch, callPrim, pathOracle, hjoin]

/-- C8 witness: the empty cases at concrete inputs. -/
theorem c8_witness :
    (∀ s ∈ (["", ""] : List String), s = "") ∧
    ((PathMod.normalize "" (pathOracle "/")).1 = .ok (.str ".") ∧
     (PathMod.join [] (pathOracle "/")).1 = .ok (.str ".") ∧
     (PathMod.join ["", ""] (pathOracle "/")).1 = .ok (.str ".")) :=
  ⟨by decide, c8_normalize_empty_join_empty "/" ["", ""] (by decide)⟩

/-- C9: `relative p p` succeeds with the empty string, and whenever the
two arguments resolve to the same path against the working directory,
`relative` succeeds with the empty string. -/
theorem c9_relative_resolved_equal (cwd p f t : String)
    (h : pathResolve cwd [f] = pathResolve cwd [t]) :
    (PathMod.relative p p (pathOracle cwd)).1 = .ok (.str "") ∧
    (PathMod.relative f t (pathOracle cwd)).1 = .ok (.str "") := by
  have hL : pathResolveL cwd.data [f.data] = pathResolveL cwd.data [t.data] := by
    have := congrArg String.data h
    simpa [pathResolve] using this
  constructor
  · have hpp : pathRelativeL cwd.data p.data p.data = [] := by
      simp [pathRelativeL]
    simp only [PathMod.relative, tryCatch, callPrim, pathOracle, pathRelative,
      hpp]
    decide
  · have hft2 : pathRelativeL cwd.data f.data t.data = [] := by
      by_cases hft : f.data = t.data
      · simp [pathRelativeL, hft]
      · simp [pathRelativeL, hft, hL]
    simp only [PathMod.relative, tryCatch, callPrim, pathOracle, pathRelative,
      hft2]
    decide

/-- C9 witness: identical and equal-resolving paths at concrete inputs. -/
theorem c9_witness :
    pathResolve "/" ["b/c"] = pathResolve "/" ["b//c"] ∧
    ((PathMod.relative "a" "a" (pathOracle "/")).1 = .ok (.str "") ∧
     (PathMod.relative "b/c" "b//c" (pathOracle "/")).1 = .ok (.str "")) :=
  ⟨by decide, c9_relative_resolved_equal "/" "a" "b/c" "b//c" (by decide)⟩

/-- C10: `mkdir` with `{recursive: false}` on a path that already exists
as a directory produces a failure outcome, and the rejection happens only
when `recursive` is false — with `recursive: true` the same call
succeeds. -/
theorem c10_mkdir_existing (dirs : List String) (p : String) (hmem : p ∈ dirs) :
    (∃ e, (FsPromises.mkdir p (some (.opts (some false) none))
        (mkdirOracle dirs)).1 = .error e) ∧
    (FsPromises.mkdir p (some (.opts (some true) none))
        (mkdirOracle dirs)).1 = .ok (.str p) := by
  constructor
  · exact ⟨⟨"EEXIST: file already exists, mkdir " ++ p, some "EEXIST", some p⟩,
      by simp [FsPromises.mkdir, tryCatch, thenConst, callPrim, mkdirOracle,
        mkdirPrim, hmem, toError]⟩
  · simp [FsPromises.mkdir, tryCatch, thenConst, callPrim, mkdirOracle,
      mkdirPrim, hmem]

/-- C10 witness: an existing directory at a concrete state. -/
theorem c10_witness :
    "d" ∈ (["d"] : List String) ∧
    ((∃ e, (FsPromises.mkdir "d" (some (.opts (some false) none))
        (mkdirOracle ["d"])).1 = .error e) ∧
     (FsPromises.mkdir "d" (some (.opts (some true) none))
        (mkdirOracle ["d"])).1 = .ok (.str "d")) :=
  ⟨by decide, c10_mkdir_existing ["d"] "d" (by decide)⟩

end FpTsNode

namespace FpTsNode.PathModel

theorem takeWhile_all_true (p : Char → Bool) (l : List Char)
    (h : ∀ c ∈ l, p c = true) : l.takeWhile p = l := by
  induction l with
  | nil => rfl
  | cons a as ih =>
    simp only [List.takeWhile_cons, h a (List.mem_cons_self a as), if_true]
    rw [ih (fun c hc => h c (List.mem_cons_of_mem a hc))]

theorem dropWhile_all_true (p : Char → Bool) (l : List Char)
    (h : ∀ c ∈ l, p c = true) : l.dropWhile p = [] := by
  induction l with
  | nil => rfl
  | cons a as ih =>
    simp only [List.dropWhile_cons, h a (List.mem_cons_self a as), if_true]
    exact ih (fun c hc => h c (List.mem_cons_of_mem a hc))

theorem dropWhile_cons_false (p : Char → Bool) (a : Char) (as : List Char)
    (h : p a = false) : (a :: as).dropWhile p = a :: as := by
  simp [List.dropWhile_cons, h]

theorem takeWhile_append_stop (p : Char → Bool) (xs : List Char) (y : Char)
    (ys : List Char) (hxs : ∀ c ∈ xs, p c = true) (hy : p y = false) :
    (xs ++ y :: ys).takeWhile p = xs := by
  induction xs with
  | nil => simp [List.takeWhile_cons, hy]
  | cons a as ih =>
    simp only [List.cons_append, List.takeWhile_cons,
      hxs a (List.mem_cons_self a as), if_true]
    rw [ih (fun c hc => hxs c (List.mem_cons_of_mem a hc))]

theorem dropWhile_append_stop (p : Char → Bool) (xs : List Char) (y : Char)
    (ys : List Char) (hxs : ∀ c ∈ xs, p c = true) (hy : p y = false) :
    (xs ++ y :: ys).dropWhile p = y :: ys := by
  induction xs with
  | nil => simp [List.dropWhile_cons, hy]
  | cons a as ih =>
    simp only [List.cons_append, List.dropWhile_cons,
      hxs a (List.mem_cons_self a as), if_true]
    exact ih (fun c hc => hxs c (List.mem_cons_of_mem a hc))

theorem dropWhile_head_false (p : Char → Bool) (l : List Char) (y : Char)
    (ys : List Char) (h : l.dropWhile p = y :: ys) : p y = false := by
  induction l with
  | nil => simp at h
  | cons a as ih =>
    by_cases hpa : p a = true
    · rw [List.dropWhile_cons, if_pos hpa] at h; exact ih h
    · rw [List.dropWhile_cons, if_neg hpa] at h
      obtain ⟨rfl, -⟩ := List.cons.injEq .. ▸ h
      simpa using hpa

theorem dropTrailSeps_eq_self (l : List Char) (a : Char) (as : List Char)
    (hrev : l.reverse = a :: as) (ha : isSep a = false) : dropTrailSeps l = l := by
  unfold dropTrailSeps
  rw [hrev, dropWhile_cons_false isSep a as ha, ← hrev, List.reverse_reverse]

theorem reverse_ne_nil (l : List Char) (h : l ≠ []) : l.reverse ≠ [] := by
  intro hc
  exact h (by simpa using congrArg List.reverse hc)

/-- Parsing a nonempty separator-free path: no root, no dir, the whole
path is the base. -/
theorem parse_nosep (b : List Char) (hb : b ≠ [])
    (hmem : ∀ c ∈ b, notSep c = true) :
    pathParseL b = ⟨[], [], b, (splitBase b).2, (splitBase b).1⟩ := by
  obtain ⟨c, cs, rfl⟩ := List.exists_cons_of_ne_nil hb
  have hc : isSep c = false := by
    have := hmem c (List.mem_cons_self c cs)
    simpa [notSep] using this
  obtain ⟨a, as, hrev⟩ := List.exists_cons_of_ne_nil
    (reverse_ne_nil (c :: cs) (List.cons_ne_nil c cs))
  have ha : isSep a = false := by
    have haMem : a ∈ c :: cs := by
      rw [← List.mem_reverse, hrev]; exact List.mem_cons_self a as
    simpa [notSep] using hmem a haMem
  have hq : dropTrailSeps (c :: cs) = c :: cs :=
    dropTrailSeps_eq_self _ a as hrev ha
  have htake : (c :: cs).reverse.takeWhile notSep = (c :: cs).reverse :=
    takeWhile_all_true notSep _ (fun x hx => hmem x (List.mem_reverse.mp hx))
  have hdrop : (c :: cs).reverse.dropWhile notSep = [] :=
    dropWhile_all_true notSep _ (fun x hx => hmem x (List.mem_reverse.mp hx))
  simp only [pathParseL, hq, htake, hdrop]
  rw [if_neg (by exact List.cons_ne_nil c cs)]
  simp [hc]

/-- Parsing a path of the shape `xs ++ "/" ++ b` with `b` a nonempty
separator-free segment: the base is `b`, the dir is `xs` (or the root
when `xs` is empty), and the root is determined by the head. -/
theorem parse_sep_append (xs b : List Char) (hb : b ≠ [])
    (hmem : ∀ c ∈ b, notSep c = true) :
    pathParseL (xs ++ '/' :: b) =
      ⟨(if isSep ((xs ++ '/' :: b).headD ' ') then ['/'] else []),
       (if xs = [] then (if isSep ((xs ++ '/' :: b).headD ' ') then ['/'] else [])
        else xs),
       b, (splitBase b).2, (splitBase b).1⟩ := by
  obtain ⟨c0, r0, hbrev⟩ := List.exists_cons_of_ne_nil (reverse_ne_nil b hb)
  have hc0 : isSep c0 = false := by
    have : c0 ∈ b := by rw [← List.mem_reverse, hbrev]; exact List.mem_cons_self c0 r0
    simpa [notSep] using hmem c0 this
  have hmemrev : ∀ x ∈ b.reverse, notSep x = true :=
    fun x hx => hmem x (List.mem_reverse.mp hx)
  have hrev : (xs ++ '/' :: b).reverse = b.reverse ++ '/' :: xs.reverse := by
    rw [List.reverse_append, List.reverse_cons, List.append_assoc]
    simp
  have hrevc : (xs ++ '/' :: b).reverse = c0 :: (r0 ++ '/' :: xs.reverse) := by
    rw [hrev, hbrev, List.cons_append]
  have hq : dropTrailSeps (xs ++ '/' :: b) = xs ++ '/' :: b :=
    dropTrailSeps_eq_self _ c0 _ hrevc hc0
  have htake : (xs ++ '/' :: b).reverse.takeWhile notSep = b.reverse := by
    rw [hrev]
    exact takeWhile_append_stop notSep b.reverse '/' xs.reverse hmemrev (by decide)
  have hdrop : (xs ++ '/' :: b).reverse.dropWhile notSep = '/' :: xs.reverse := by
    rw [hrev]
    exact dropWhile_append_stop notSep b.reverse '/' xs.reverse hmemrev (by decide)
  cases xs with
  | nil =>
    simp only [List.nil_append, List.reverse_nil] at hq htake hdrop ⊢
    simp only [pathParseL, hq, htake, hdrop]
    rw [if_neg (by exact List.cons_ne_nil '/' b)]
    simp [isSep]
  | cons x xs' =>
    simp only [List.cons_append] at hq htake hdrop ⊢
    have hpre : ('/' :: (x :: xs').reverse).reverse = (x :: xs') ++ ['/'] := by
      rw [List.reverse_cons, List.reverse_reverse]
    simp only [pathParseL, hq, htake, hdrop]
    rw [if_neg (by exact List.cons_ne_nil x (xs' ++ '/' :: b))]
    simp [hpre]
    rw [show x :: (xs' ++ ['/']) = (x :: xs') ++ ['/'] from rfl, List.dropLast_concat]
    simp

theorem head_eq_of_eq_append_cons (c e : Char) (cs rest t2 : List Char)
    (h : c :: cs = (e :: rest) ++ t2) : c = e := by
  rw [List.cons_append] at h
  injection h with h1 h2

/-- The format-then-parse round trip on every structure produced by
parse. -/
theorem parseL_roundtrip (l : List Char) :
    pathParseL (pathFormatL (pathParseL l)) = pathParseL l := by
  cases l with
  | nil => rfl
  | cons c cs =>
    by_cases hq0 : dropTrailSeps (c :: cs) = []
    · have h1 : pathParseL (c :: cs) = ⟨['/'], ['/'], [], [], []⟩ := by
        simp [pathParseL, hq0]
      rw [h1]
      decide
    · -- decompose the trimmed path
      have hqrev : (dropTrailSeps (c :: cs)).reverse
          = (c :: cs).reverse.dropWhile isSep := by
        unfold dropTrailSeps; rw [List.reverse_reverse]
      obtain ⟨y, ys, hyys⟩ :=
        List.exists_cons_of_ne_nil (reverse_ne_nil _ hq0)
      have hy : isSep y = false :=
        dropWhile_head_false isSep (c :: cs).reverse y ys (by rw [← hqrev, hyys])
      -- base and prefix of the trimmed path
      have hsplit : (dropTrailSeps (c :: cs)).reverse.takeWhile notSep
            ++ (dropTrailSeps (c :: cs)).reverse.dropWhile notSep
          = (dropTrailSeps (c :: cs)).reverse :=
        List.takeWhile_append_dropWhile notSep (dropTrailSeps (c :: cs)).reverse
      have hbne : (dropTrailSeps (c :: cs)).reverse.takeWhile notSep ≠ [] := by
        rw [hyys, List.takeWhile_cons]
        simp [hy, notSep]
      have hmemb : ∀ x ∈ ((dropTrailSeps (c :: cs)).reverse.takeWhile notSep).reverse,
          notSep x = true := by
        intro x hx
        have := List.mem_takeWhile_imp (List.mem_reverse.mp hx)
        simpa using this
      have hbrevne : ((dropTrailSeps (c :: cs)).reverse.takeWhile notSep).reverse ≠ [] :=
        reverse_ne_nil _ hbne
      -- the trimmed path splits as pre ++ base
      have hqeq : dropTrailSeps (c :: cs)
          = ((dropTrailSeps (c :: cs)).reverse.dropWhile notSep).reverse
            ++ ((dropTrailSeps (c :: cs)).reverse.takeWhile notSep).reverse := by
        have h2 := congrArg List.reverse hsplit
        rw [List.reverse_append, List.reverse_reverse] at h2
        exact h2.symm
      -- the whole path is the trimmed path plus trailing separators
      have hl : c :: cs = dropTrailSeps (c :: cs)
          ++ ((c :: cs).reverse.takeWhile isSep).reverse := by
        calc c :: cs = (c :: cs).reverse.reverse := (List.reverse_reverse _).symm
          _ = ((c :: cs).reverse.takeWhile isSep
                ++ (c :: cs).reverse.dropWhile isSep).reverse := by
              rw [List.takeWhile_append_dropWhile]
          _ = ((c :: cs).reverse.dropWhile isSep).reverse
                ++ ((c :: cs).reverse.takeWhile isSep).reverse := by
              rw [List.reverse_append]
          _ = _ := by rw [← hqrev, List.reverse_reverse]
      cases hpre : (dropTrailSeps (c :: cs)).reverse.dropWhile notSep with
      | nil =>
        -- no separator before the base: the trimmed path is the base alone
        rw [hpre, List.reverse_nil, List.nil_append] at hqeq
        obtain ⟨b0, bs, hB⟩ := List.exists_cons_of_ne_nil hbrevne
        have hcb : c = b0 := by
          rw [hqeq, hB] at hl
          exact head_eq_of_eq_append_cons c b0 cs bs _ hl
        have hc : isSep c = false := by
          have : c ∈ ((dropTrailSeps (c :: cs)).reverse.takeWhile notSep).reverse := by
            rw [hB, hcb]; exact List.mem_cons_self b0 bs
          simpa [notSep] using hmemb c this
        have h1 : pathParseL (c :: cs) =
            ⟨[], [], ((dropTrailSeps (c :: cs)).reverse.takeWhile notSep).reverse,
             (splitBase ((dropTrailSeps (c :: cs)).reverse.takeWhile notSep).reverse).2,
             (splitBase ((dropTrailSeps (c :: cs)).reverse.takeWhile notSep).reverse).1⟩ := by
          simp only [pathParseL]
          rw [if_neg hq0]
          simp [hpre, hc]
        rw [h1]
        have hfmt : pathFormatL
            ⟨[], [], ((dropTrailSeps (c :: cs)).reverse.takeWhile notSep).reverse,
             (splitBase ((dropTrailSeps (c :: cs)).reverse.takeWhile notSep).reverse).2,
             (splitBase ((dropTrailSeps (c :: cs)).reverse.takeWhile notSep).reverse).1⟩
            = ((dropTrailSeps (c :: cs)).reverse.takeWhile notSep).reverse := by
          simp [pathFormatL, hbrevne]
        rw [hfmt]
        exact parse_nosep _ hbrevne hmemb
      | cons z zs =>
        -- a separator precedes the base
        have hz : z = '/' := by
          have := dropWhile_head_false notSep
            (dropTrailSeps (c :: cs)).reverse z zs hpre
          simpa [notSep, isSep] using this
        subst hz
        cases hzs : zs.reverse with
        | nil =>
          -- the prefix is exactly the root separator
          have hpre2 : ((dropTrailSeps (c :: cs)).reverse.dropWhile notSep).reverse
              = ['/'] := by
            rw [hpre, List.reverse_cons, hzs, List.nil_append]
          rw [hpre2] at hqeq
          have hc : c = '/' := by
            rw [hqeq] at hl
            exact head_eq_of_eq_append_cons c '/' cs
              ((dropTrailSeps (c :: cs)).reverse.takeWhile notSep).reverse _ (by simpa using hl)
          have hcsep : isSep c = true := by rw [hc]; decide
          have h1 : pathParseL (c :: cs) =
              ⟨['/'], ['/'], ((dropTrailSeps (c :: cs)).reverse.takeWhile notSep).reverse,
               (splitBase ((dropTrailSeps (c :: cs)).reverse.takeWhile notSep).reverse).2,
               (splitBase ((dropTrailSeps (c :: cs)).reverse.takeWhile notSep).reverse).1⟩ := by
            simp only [pathParseL]
            rw [if_neg hq0]
            rw [hpre2]
            simp [hcsep]
          rw [h1]
          have hfmt : pathFormatL
              ⟨['/'], ['/'], ((dropTrailSeps (c :: cs)).reverse.takeWhile notSep).reverse,
               (splitBase ((dropTrailSeps (c :: cs)).reverse.takeWhile notSep).reverse).2,
               (splitBase ((dropTrailSeps (c :: cs)).reverse.takeWhile notSep).reverse).1⟩
              = '/' :: ((dropTrailSeps (c :: cs)).reverse.takeWhile notSep).reverse := by
            simp [pathFormatL, hbrevne]
          rw [hfmt]
          have h2 := parse_sep_append []
            ((dropTrailSeps (c :: cs)).reverse.takeWhile notSep).reverse hbrevne hmemb
          simpa [isSep] using h2
        | cons e es =>
          -- a nonempty dir before the separator
          have hpre2 : ((dropTrailSeps (c :: cs)).reverse.dropWhile notSep).reverse
              = (e :: es) ++ ['/'] := by
            rw [hpre, List.reverse_cons, hzs]
          rw [hpre2, List.append_assoc, List.singleton_append] at hqeq
          have hce : c = e := by
            rw [hqeq] at hl
            rw [List.append_assoc] at hl
            exact head_eq_of_eq_append_cons c e cs es _ (by simpa using hl)
          have h1 : pathParseL (c :: cs) =
              ⟨(if isSep c then ['/'] else []), e :: es,
               ((dropTrailSeps (c :: cs)).reverse.takeWhile notSep).reverse,
               (splitBase ((dropTrailSeps (c :: cs)).reverse.takeWhile notSep).reverse).2,
               (splitBase ((dropTrailSeps (c :: cs)).reverse.takeWhile notSep).reverse).1⟩ := by
            simp only [pathParseL]
            rw [if_neg hq0]
            rw [hpre2, List.dropLast_concat]
            simp
          rw [h1]
          by_cases hdr : (e :: es) = (if isSep c then ['/'] else [])
          · -- the dir equals the root: both are the bare separator
            have hcsep : isSep c = true := by
              by_contra hcf
              rw [if_neg (by simpa using hcf)] at hdr
              exact List.cons_ne_nil e es hdr
            have hes : e = '/' ∧ es = [] := by
              rw [if_pos hcsep] at hdr
              exact ⟨((List.cons.injEq e es '/' []).mp hdr).1,
                     ((List.cons.injEq e es '/' []).mp hdr).2⟩
            obtain ⟨rfl, rfl⟩ := hes
            rw [if_pos hcsep]
            have hfmt : pathFormatL
                ⟨['/'], ['/'], ((dropTrailSeps (c :: cs)).reverse.takeWhile notSep).reverse,
                 (splitBase ((dropTrailSeps (c :: cs)).reverse.takeWhile notSep).reverse).2,
                 (splitBase ((dropTrailSeps (c :: cs)).reverse.takeWhile notSep).reverse).1⟩
                = '/' :: ((dropTrailSeps (c :: cs)).reverse.takeWhile notSep).reverse := by
              simp [pathFormatL, hbrevne]
            rw [hfmt]
            have h2 := parse_sep_append []
              ((dropTrailSeps (c :: cs)).reverse.takeWhile notSep).reverse hbrevne hmemb
            simpa [isSep] using h2
          · -- the dir differs from the root: format emits dir ++ "/" ++ base
            have hfmt : pathFormatL
                ⟨(if isSep c then ['/'] else []), e :: es,
                 ((dropTrailSeps (c :: cs)).reverse.takeWhile notSep).reverse,
                 (splitBase ((dropTrailSeps (c :: cs)).reverse.takeWhile notSep).reverse).2,
                 (splitBase ((dropTrailSeps (c :: cs)).reverse.takeWhile notSep).reverse).1⟩
                = (e :: es) ++ '/' ::
                    ((dropTrailSeps (c :: cs)).reverse.takeWhile notSep).reverse := by
              simp [pathFormatL, hbrevne, hdr]
            rw [hfmt]
            have h2 := parse_sep_append (e :: es)
              ((dropTrailSeps (c :: cs)).reverse.takeWhile notSep).reverse hbrevne hmemb
            rw [h2]
            simp [hce, hbrevne]

end FpTsNode.PathModel

namespace FpTsNode

open PathModel

/-- C7: for every valid parsed-path structure — one produced by the
decomposition `parse` — formatting succeeds, and parsing the path
produced by `format` succeeds and reproduces the same structure, even
though format-after-parse need not reproduce the original string. -/
theorem c7_format_parse_roundtrip (cwd p : String) (s : ParsedPath)
    (hs : s = pathParse p) :
    (PathMod.format s (pathOracle cwd)).1 = .ok (.str (pathFormat s)) ∧
    (PathMod.parse (pathFormat s) (pathOracle cwd)).1 = .ok (.parsed s) := by
  constructor
  · simp [PathMod.format, tryCatch, callPrim, pathOracle]
  · simp only [PathMod.parse, tryCatch, callPrim, pathOracle]
    subst hs
    have hrt : pathParse (pathFormat (pathParse p)) = pathParse p := by
      simp only [pathParse, pathFormat]
      exact parseL_roundtrip p.data
    simp [hrt]

/-- C7 witness: the round trip at a concrete absolute path. -/
theorem c7_witness :
    pathParse "/a/b.txt" = pathParse "/a/b.txt" ∧
    ((PathMod.format (pathParse "/a/b.txt") (pathOracle "/")).1 =
       .ok (.str (pathFormat (pathParse "/a/b.txt"))) ∧
     (PathMod.parse (pathFormat (pathParse "/a/b.txt")) (pathOracle "/")).1 =
       .ok (.parsed (pathParse "/a/b.txt"))) :=
  ⟨rfl, c7_format_parse_roundtrip "/" "/a/b.txt" (pathParse "/a/b.txt") rfl⟩

end FpTsNode
